import Mathlib

/-!
Shallow embedding of the indicator / labeling pipeline of the
`algorithmic_trading_analysis` notebooks.

Prices are modelled as `List ℚ` (one value per trading day, positionally
indexed), a pandas `NaN` as `none`, and a pandas `Series` that carries an
explicit integer label index as `List (ℕ × Option ℚ)` (label, value).

`rolling(window=w)` aggregations (pandas default `min_periods = window`) and
`ewm(alpha=a, min_periods=m)` (pandas defaults `adjust=True`,
`ignore_na=False`) are translated literally:
* rolling mean at position `i` is defined once `w` observations have
  accumulated (`w ≤ i+1`) and averages the trailing `w` observations
  (pandas rejects `window = 0`, so theorems assume `1 ≤ w`);
* the adjusted ewm at position `i` is
  `(Σ_{j≤i, x_j ≠ NaN} (1-a)^(i-j)·x_j) / (Σ_{j≤i, x_j ≠ NaN} (1-a)^(i-j))`,
  `NaN` until the number of non-`NaN` observations reaches `min_periods`.
-/

/-- The trailing window of the last `w` observations ending at position `i`
(the slice a pandas rolling window aggregates). -/
def windowSlice (w : ℕ) (xs : List ℚ) (i : ℕ) : List ℚ :=
  (xs.take (i + 1)).drop (i + 1 - w)

/-- `data.rolling(window=w).mean()` at position `i`. -/
def rollingMeanAt (w : ℕ) (xs : List ℚ) (i : ℕ) : Option ℚ :=
  if w ≤ i + 1 then some ((windowSlice w xs i).sum / (w : ℚ)) else none

/-- `data.rolling(window=w).var()` at position `i` (pandas `ddof = 1`;
for `w = 1` the sample variance is `0/0`, which pandas reports as `NaN`). -/
def rollingVarAt (w : ℕ) (xs : List ℚ) (i : ℕ) : Option ℚ :=
  if w ≤ i + 1 ∧ 2 ≤ w then
    some (((windowSlice w xs i).map
      (fun x => (x - (windowSlice w xs i).sum / (w : ℚ)) ^ 2)).sum / ((w : ℚ) - 1))
  else none

/-- Weight contributed by position `j` to the adjusted ewm at position `i`
(zero for a `NaN` observation; `ignore_na=False` keeps absolute positions). -/
def ewmTermW (a : ℚ) (xs : List (Option ℚ)) (i j : ℕ) : ℚ :=
  match xs.getD j none with
  | some _ => (1 - a) ^ (i - j)
  | none => 0

/-- Weighted value contributed by position `j` to the adjusted ewm at `i`. -/
def ewmTermV (a : ℚ) (xs : List (Option ℚ)) (i j : ℕ) : ℚ :=
  match xs.getD j none with
  | some v => (1 - a) ^ (i - j) * v
  | none => 0

/-- Numerator of the adjusted ewm at position `i`. -/
def ewmNum (a : ℚ) (xs : List (Option ℚ)) (i : ℕ) : ℚ :=
  ((List.range (i + 1)).map (ewmTermV a xs i)).sum

/-- Denominator of the adjusted ewm at position `i`. -/
def ewmDen (a : ℚ) (xs : List (Option ℚ)) (i : ℕ) : ℚ :=
  ((List.range (i + 1)).map (ewmTermW a xs i)).sum

/-- Number of non-`NaN` observations among positions `0 … i`. -/
def obsCount (xs : List (Option ℚ)) (i : ℕ) : ℕ :=
  ((List.range (i + 1)).filter (fun j => (xs.getD j none).isSome)).length

/-- `data.ewm(alpha=a, min_periods=m).mean()` at position `i`. -/
def ewmMeanAt (a : ℚ) (minPeriods : ℕ) (xs : List (Option ℚ)) (i : ℕ) : Option ℚ :=
  if minPeriods ≤ obsCount xs i ∧ ewmDen a xs i ≠ 0 then
    some (ewmNum a xs i / ewmDen a xs i)
  else none

/-- `data.ewm(alpha=a, min_periods=m).mean()`. -/
def ewmMean (a : ℚ) (minPeriods : ℕ) (xs : List (Option ℚ)) : List (Option ℚ) :=
  (List.range xs.length).map (ewmMeanAt a minPeriods xs)

/-- `calculate_SMA`: `data.rolling(window=window).mean()`. -/
def calculate_SMA (data : List ℚ) (window : ℕ) : List (Option ℚ) :=
  (List.range data.length).map (rollingMeanAt window data)

/-- `calculate_EMA`: `alpha = 2 / (window + 1)`;
`data.ewm(alpha=alpha, min_periods=window).mean()`. -/
def calculate_EMA (data : List (Option ℚ)) (window : ℕ) : List (Option ℚ) :=
  ewmMean (2 / ((window : ℚ) + 1)) window data

/-- Pointwise difference of two aligned series (`NaN` propagates). -/
def seriesSub (a b : List (Option ℚ)) : List (Option ℚ) :=
  List.zipWith (fun x y =>
    match x, y with
    | some u, some v => some (u - v)
    | _, _ => none) a b

/-- `calculate_MACD` of the third notebook cell: fast/slow/signal EMAs are
`calculate_EMA` (smoothing factor `2/(window+1)`). -/
def calculate_MACD (data : List (Option ℚ))
    (slow_ema_window fast_ema_window signal_ema_window : ℕ) :
    List (Option ℚ) × List (Option ℚ) :=
  let fast_ema := calculate_EMA data fast_ema_window
  let slow_ema := calculate_EMA data slow_ema_window
  let macd := seriesSub fast_ema slow_ema
  let signal_line := calculate_EMA macd signal_ema_window
  (macd, signal_line)

/-- `calculate_MACD` of the second notebook cell: the three EMAs are computed
directly with `ewm(alpha=1/window, min_periods=window)`. -/
def calculate_MACD_v2 (data : List (Option ℚ))
    (slow_ema_window fast_ema_window signal_ema_window : ℕ) :
    List (Option ℚ) × List (Option ℚ) :=
  let fast_ema := ewmMean (1 / (fast_ema_window : ℚ)) fast_ema_window data
  let slow_ema := ewmMean (1 / (slow_ema_window : ℚ)) slow_ema_window data
  let macd := seriesSub fast_ema slow_ema
  let signal_line := ewmMean (1 / (signal_ema_window : ℚ)) signal_ema_window macd
  (macd, signal_line)

/-! ### Label-indexed series (for `calculate_RSI`)

`delta[delta > 0]` and `delta[delta < 0]` are boolean-mask selections: they
produce *shorter* series that keep the original integer labels.  Binary
operations between two label-indexed series align on the sorted union of
their label sets, with `NaN` where a label is missing from one side. -/

/-- A pandas Series with an explicit integer label index. -/
abbrev ISeries := List (ℕ × Option ℚ)

/-- `data.diff()` value at label `i` (`NaN` at the first label). -/
def deltaValAt (data : List ℚ) (i : ℕ) : Option ℚ :=
  if i = 0 then none else some (data.getD i 0 - data.getD (i - 1) 0)

/-- `data.diff()` as a label-indexed series over labels `0 … n-1`. -/
def diffIdx (data : List ℚ) : ISeries :=
  (List.range data.length).map (fun i => (i, deltaValAt data i))

/-- `v > 0` in pandas boolean indexing (`NaN > 0` is `False`). -/
def isPosVal (o : Option ℚ) : Bool :=
  match o with
  | some v => decide (0 < v)
  | none => false

/-- `v < 0` in pandas boolean indexing (`NaN < 0` is `False`). -/
def isNegVal (o : Option ℚ) : Bool :=
  match o with
  | some v => decide (v < 0)
  | none => false

/-- `delta[delta > 0]`: keep the positive entries, labels preserved. -/
def filterPos (s : ISeries) : ISeries :=
  s.filter (fun p => isPosVal p.2)

/-- `delta[delta < 0].abs()`: keep the negative entries, labels preserved,
absolute values taken. -/
def filterNegAbs (s : ISeries) : ISeries :=
  (s.filter (fun p => isNegVal p.2)).map (fun p => (p.1, p.2.map (fun v => |v|)))

/-- `ewm(...).mean()` on a label-indexed series: positions for the ewm
weights are the positions *within this series*; labels are preserved. -/
def ewmMeanI (a : ℚ) (minPeriods : ℕ) (s : ISeries) : ISeries :=
  List.zipWith (fun p o => (p.1, o)) s (ewmMean a minPeriods (s.map Prod.snd))

/-- Insert into a sorted list of labels. -/
def insertAsc (k : ℕ) : List ℕ → List ℕ
  | [] => [k]
  | x :: xs => if k ≤ x then k :: x :: xs else x :: insertAsc k xs

/-- Sort a list of labels ascending. -/
def sortAsc (l : List ℕ) : List ℕ :=
  l.foldr insertAsc []

/-- Sorted union of the label sets of two indexed series (the index pandas
gives the result of a binary operation between the two). -/
def unionLabels (a b : ISeries) : List ℕ :=
  sortAsc ((a.map Prod.fst ++ b.map Prod.fst).dedup)

/-- Label lookup: `some v` when the label is present with value `v`
(where `v` itself may be `none`, i.e. `NaN`). -/
def lookupI (s : ISeries) (k : ℕ) : Option (Option ℚ) :=
  (s.find? (fun p => p.1 == k)).map Prod.snd

/-- Division of two label-indexed series with pandas index alignment:
a label missing from either operand yields `NaN`.  (When both operands are
present and the divisor is `0`, numpy would produce `±inf`; in this program
the two operands always have disjoint label sets, so that branch is
unreachable and is modelled as `none`.) -/
def divAligned (a b : ISeries) : ISeries :=
  (unionLabels a b).map (fun k =>
    (k, match lookupI a k, lookupI b k with
        | some (some x), some (some y) => if y = 0 then none else some (x / y)
        | _, _ => none))

/-- `calculate_RSI`: `delta = data.diff()`;
`up, down = delta[delta > 0], delta[delta < 0].abs()`;
`RS = up.ewm(alpha=1/window, min_periods=window).mean() /
      down.ewm(alpha=1/window, min_periods=window).mean()`;
`RSI = 100 - 100 / (1 + RS)`.  The result is a label-indexed series over the
union of the `up` and `down` label sets. -/
def calculate_RSI (data : List ℚ) (window : ℕ) : ISeries :=
  let delta := diffIdx data
  let up := filterPos delta
  let down := filterNegAbs delta
  let upAvg := ewmMeanI (1 / (window : ℚ)) window up
  let downAvg := ewmMeanI (1 / (window : ℚ)) window down
  let rs := divAligned upAvg downAvg
  rs.map (fun p => (p.1, p.2.map (fun v => 100 - 100 / (1 + v))))

/-- `calculate_bollinger_bands`: rolling mean ± 2·(rolling std).
The square root applied to the rolling variance is irrational in general, so
it is a parameter `sq`; every theorem below holds for an arbitrary `sq`. -/
def calculate_bollinger_bands (sq : ℚ → ℚ) (data : List ℚ) (window : ℕ) :
    List (Option ℚ) × List (Option ℚ) :=
  let rolling_mean := (List.range data.length).map (rollingMeanAt window data)
  let std := (List.range data.length).map (fun i => (rollingVarAt window data i).map sq)
  (List.zipWith (fun m s =>
      match m, s with
      | some u, some v => some (u + 2 * v)
      | _, _ => none) rolling_mean std,
   List.zipWith (fun m s =>
      match m, s with
      | some u, some v => some (u - 2 * v)
      | _, _ => none) rolling_mean std)

/-- Reindex a label-indexed series onto the dense positional index
`0 … n-1` (what assigning it as a column of an `n`-row DataFrame does):
missing labels become `NaN`. -/
def reindexTo (n : ℕ) (s : ISeries) : List (Option ℚ) :=
  (List.range n).map (fun k =>
    match lookupI s k with
    | some v => v
    | none => none)

/-- `Series.diff()` on a positional series with possible `NaN`s. -/
def diffO (xs : List (Option ℚ)) : List (Option ℚ) :=
  (List.range xs.length).map (fun i =>
    if i = 0 then none
    else
      match xs.getD i none, xs.getD (i - 1) none with
      | some u, some v => some (u - v)
      | _, _ => none)

/-- Pointwise `>` between two aligned float series
(any comparison involving `NaN` is `False`). -/
def seriesGt (a b : List (Option ℚ)) : List Bool :=
  List.zipWith (fun x y =>
    match x, y with
    | some u, some v => decide (v < u)
    | _, _ => false) a b

/-- The feature table built by `create_features` (third notebook cell),
one column per constructed feature. -/
structure Features where
  sma20 : List (Option ℚ)
  ema12 : List (Option ℚ)
  macd : List (Option ℚ)
  macdSignal : List (Option ℚ)
  rsi14 : List (Option ℚ)
  bbUpper : List (Option ℚ)
  bbLower : List (Option ℚ)
  emaCrossover : List Bool
  rsiMomentum : List (Option ℚ)
  bbWidth : List (Option ℚ)

/-- `create_features` (third notebook cell): SMA_20, EMA_12, MACD and its
signal line, RSI_14, Bollinger bands, EMA-above-SMA crossover flag, RSI
momentum (`diff`), and Bollinger band width.  The RSI column, which the
source builds on a label-indexed series, is aligned back onto the
DataFrame's dense index. -/
def create_features (sq : ℚ → ℚ) (data : List ℚ) : Features :=
  let sma := calculate_SMA data 20
  let ema := calculate_EMA (data.map some) 12
  let m := calculate_MACD (data.map some) 26 12 9
  let rsi := reindexTo data.length (calculate_RSI data 14)
  let bb := calculate_bollinger_bands sq data 20
  { sma20 := sma
    ema12 := ema
    macd := m.1
    macdSignal := m.2
    rsi14 := rsi
    bbUpper := bb.1
    bbLower := bb.2
    emaCrossover := seriesGt ema sma
    rsiMomentum := diffO rsi
    bbWidth := seriesSub bb.1 bb.2 }

/-- Row `i` of the feature table. -/
def featureRow (f : Features) (i : ℕ) :
    Option ℚ × Option ℚ × Option ℚ × Option ℚ × Option ℚ × Option ℚ × Option ℚ ×
      Bool × Option ℚ × Option ℚ :=
  (f.sma20.getD i none, f.ema12.getD i none, f.macd.getD i none,
   f.macdSignal.getD i none, f.rsi14.getD i none, f.bbUpper.getD i none,
   f.bbLower.getD i none, f.emaCrossover.getD i false,
   f.rsiMomentum.getD i none, f.bbWidth.getD i none)

/-- `features.loc[i, c] < t` (`False` when the cell is `NaN`). -/
def ltO (a : Option ℚ) (c : ℚ) : Bool :=
  match a with
  | some v => decide (v < c)
  | none => false

/-- `features.loc[i, c] > t` (`False` when the cell is `NaN`). -/
def gtO (a : Option ℚ) (c : ℚ) : Bool :=
  match a with
  | some v => decide (c < v)
  | none => false

/-- `x > cell` for a scalar against a possibly-`NaN` cell. -/
def gtQO (x : ℚ) (a : Option ℚ) : Bool :=
  match a with
  | some v => decide (v < x)
  | none => false

/-- `x < cell` for a scalar against a possibly-`NaN` cell. -/
def ltQO (x : ℚ) (a : Option ℚ) : Bool :=
  match a with
  | some v => decide (x < v)
  | none => false

/-- `define_target` (third notebook cell): per row, Buy on EMA crossover
with RSI_14 < 30, Sell on no crossover with RSI_14 > 70, else Hold; the
`return` sits after the loop, so every row is labeled. -/
def define_target (data : List ℚ) (features : Features) : List String :=
  (List.range data.length).map (fun i =>
    if features.emaCrossover.getD i false && ltO (features.rsi14.getD i none) 30 then
      "Buy"
    else if !(features.emaCrossover.getD i false) &&
        gtO (features.rsi14.getD i none) 70 then
      "Sell"
    else
      "Hold")

/-- `define_target` of the second notebook cell.  Its `return
pd.Series(targets, index=data.index, ...)` statement is indented *inside*
the loop body, so it executes at the end of iteration `i = 0` with a single
accumulated label: for an empty input the loop never runs and the function
falls through returning `None` (`Except.ok none`); for a one-row input the
Series is built from the single label; for two or more rows the Series
constructor raises, since one value does not match an index of length `n`.
Only the `RSI_14` and `SMA_20` feature columns are consulted. -/
def define_target_v2 (data : List ℚ) (rsi14 sma20 : List (Option ℚ)) :
    Except String (Option (List String)) :=
  if data.length = 0 then Except.ok none
  else
    let targets :=
      [if ltO (rsi14.getD 0 none) 30 && gtQO (data.getD 0 0) (sma20.getD 0 none) then
         "Buy"
       else if gtO (rsi14.getD 0 none) 70 && ltQO (data.getD 0 0) (sma20.getD 0 none) then
         "Sell"
       else
         "Hold"]
    if targets.length = data.length then Except.ok (some targets)
    else Except.error "Length of values does not match length of index"

/-- `trading_decision` (first notebook):
`np.where(data.Close > data.SMA_20, 'Buy', 'Sell')` — a `NaN` comparison is
`False`, hence `'Sell'`. -/
def trading_decision (close : List ℚ) (sma20 : List (Option ℚ)) : List String :=
  List.zipWith (fun c s => if gtQO c s then "Buy" else "Sell") close sma20

/-- The scores `build_model` feeds to `roc_auc_score`:
`model.predict_proba(X_test)[:, 1]` — the probability column of the single
class at position 1, regardless of how many classes there are. -/
def predict_proba_col1 (proba : List (List ℚ)) : List ℚ :=
  proba.map (fun row => row.getD 1 0)

/-- `pd.get_dummies` over a fixed class order: the one-hot encoding the
first notebook's `evaluate` feeds to `roc_auc_score` for *all* classes. -/
def get_dummies (classes : List String) (ys : List String) : List (List ℕ) :=
  ys.map (fun y => classes.map (fun c => if y = c then 1 else 0))

/-- `main` of the third notebook cell: after downloading data (the
downloaded series is a parameter here), it builds features and targets,
fits the model, and then — unconditionally, as the last statement of its own
body, with no base case — calls `main()` again.  `fuel` bounds the number of
body executions we observe; `none` means no normal return happened within
that many recursive calls. -/
def mainRun (sq : ℚ → ℚ) (data : List ℚ) : ℕ → Option (List String)
  | 0 => none
  | fuel + 1 =>
      let features := create_features sq data
      let target := define_target data features
      let _model := target
      mainRun sq data fuel

/-!
Batteries marks the arithmetic on `Rat` `@[irreducible]`; re-expose it so
that concrete runs of the embedded pipeline can be checked by `decide`.
-/
unseal Rat.add Rat.mul Rat.inv Rat.sub

/-! ### Concrete example inputs -/

/-- A 26-day strictly increasing price series (already wrapped as a
fully-observed float series), long enough for the default MACD windows. -/
def exampleSeries26 : List (Option ℚ) :=
  (List.range 26).map (fun i => some ((i : ℚ) + 1))

/-! ### C10: `main` never terminates normally -/

/-- C10: `main` unconditionally re-invokes itself as the last step of its
own body with no base case or guard, so however many recursive calls we
allow, no call to `main` ever returns normally. -/
theorem mainRun_never_returns (sq : ℚ → ℚ) (data : List ℚ) (fuel : ℕ) :
    mainRun sq data fuel = none := by
  induction fuel with
  | zero => rfl
  | succ n ih => simpa [mainRun] using ih

/-! ### C1: the second-cell `define_target` stops after the first row -/

/-- C1 (code bug): on the two-row price series `[1, 2]`, the second-cell
`define_target` returns from inside its loop after labeling only row 0, and
building the one-element Series against the two-element index raises a
length-mismatch error instead of yielding one label per row. -/
theorem define_target_v2_stops_after_first_row :
    define_target_v2 [(1 : ℚ), 2] [none, none] [none, none] =
      Except.error "Length of values does not match length of index" := by
  rfl

/-! ### C4 / C5: `calculate_RSI` never produces a defined value -/

/-- C4 (code bug): on an alternating gain/loss series — where a relative
strength index would have defined values after warm-up — `calculate_RSI`
yields `NaN` at every label: the boolean-mask selections `delta[delta > 0]`
and `delta[delta < 0]` have disjoint label sets, so dividing their smoothed
means aligns to all-`NaN`. -/
theorem calculate_RSI_all_nan_alternating :
    (calculate_RSI [(10 : ℚ), 11, 10, 11, 10, 11, 10, 11, 10, 11] 3).map Prod.snd =
      List.replicate 9 none := by
  decide

/-- C5 (code bug): on the strictly rising series `[1, 2, 3, 4, 5, 6]` with
window 2 — all gains, zero losses, where the spec expects `RSI = 100` —
`calculate_RSI` yields `NaN` at every label rather than `100`. -/
theorem calculate_RSI_all_nan_all_gains :
    (calculate_RSI [(1 : ℚ), 2, 3, 4, 5, 6] 2).map Prod.snd =
      List.replicate 5 none := by
  decide

/-! ### C3: the second-cell MACD does not use `alpha = 2/(window+1)` -/

set_option maxRecDepth 8000 in
/-- C3 (counterexample): at the default windows `(26, 12, 9)` on a concrete
26-day series, the MACD line of the second-cell `calculate_MACD` (ewm with
`alpha = 1/window`) differs from the MACD built from `calculate_EMA`
(`alpha = 2/(window+1)`): not every EMA in the pipeline uses
`alpha = 2/(window+1)`. -/
theorem calculate_MACD_v2_alpha_differs :
    (calculate_MACD_v2 exampleSeries26 26 12 9).1 ≠
      (calculate_MACD exampleSeries26 26 12 9).1 := by
  decide

/-! ### C7: SMA of a strictly increasing series is not the input -/

/-- C7 (counterexample): for the strictly increasing series `[1, 2, 3]` and
window 2, the SMA at index 1 is `3/2`, not the input value `2` — feeding a
monotonically increasing series into the pipeline does not return the input
unchanged. -/
theorem calculate_SMA_increasing_not_input :
    (calculate_SMA [(1 : ℚ), 2, 3] 2).getD 1 none = some (3 / 2) ∧
      (3 / 2 : ℚ) ≠ 2 := by
  decide

/-! ### C8: `build_model` feeds a single class column to AUC-ROC -/

/-- C8 (code bug): `build_model` hands `roc_auc_score` only
`predict_proba(X_test)[:, 1]` — the probability column of the single class
at position 1.  Two three-class probability matrices that differ in the
columns of classes 0 and 2 produce the *same* score input, so the
information required for a three-class AUC-ROC is discarded; by contrast the
one-hot encoding used by the first notebook's `evaluate` keeps all classes. -/
theorem predict_proba_col1_discards_classes :
    predict_proba_col1 [[7/10, 1/10, 1/5], [0, 1/10, 9/10]] =
        predict_proba_col1 [[1/5, 1/10, 7/10], [9/10, 1/10, 0]] ∧
      ([[7/10, 1/10, 1/5], [0, 1/10, 9/10]] : List (List ℚ)) ≠
        [[1/5, 1/10, 7/10], [9/10, 1/10, 0]] ∧
      get_dummies ["Buy", "Hold", "Sell"] ["Hold", "Sell"] =
        [[0, 1, 0], [0, 0, 1]] := by
  decide

/-! ### Generic list access lemmas -/

theorem getD_range_map {α : Type} (f : ℕ → α) {n i : ℕ} (h : i < n) (d : α) :
    ((List.range n).map f).getD i d = f i := by
  have hl : i < ((List.range n).map f).length := by simpa using h
  rw [List.getD_eq_getElem?_getD, List.getElem?_eq_getElem hl]
  simp

theorem getD_zipWith {α β γ : Type} (f : α → β → γ) (a : List α) (b : List β)
    {i : ℕ} (ha : i < a.length) (hb : i < b.length) (d : γ) (da : α) (db : β) :
    (List.zipWith f a b).getD i d = f (a.getD i da) (b.getD i db) := by
  have hl : i < (List.zipWith f a b).length := by
    rw [List.length_zipWith]; omega
  rw [List.getD_eq_getElem?_getD, List.getElem?_eq_getElem hl,
    List.getD_eq_getElem?_getD, List.getD_eq_getElem?_getD,
    List.getElem?_eq_getElem ha, List.getElem?_eq_getElem hb]
  simp [List.getElem_zipWith]

theorem getD_of_take_eq {α : Type} {as bs : List α} {i : ℕ}
    (h : as.take (i + 1) = bs.take (i + 1)) {j : ℕ} (hj : j ≤ i) (d : α) :
    as.getD j d = bs.getD j d := by
  rw [List.getD_eq_getElem?_getD, List.getD_eq_getElem?_getD]
  have h1 : as[j]? = (as.take (i + 1))[j]? :=
    (List.getElem?_take_of_lt (by omega)).symm
  have h2 : bs[j]? = (bs.take (i + 1))[j]? :=
    (List.getElem?_take_of_lt (by omega)).symm
  rw [h1, h2, h]

theorem take_eq_of_take_eq {α : Type} {as bs : List α} {i j : ℕ} (hj : j ≤ i)
    (h : as.take (i + 1) = bs.take (i + 1)) : as.take (j + 1) = bs.take (j + 1) := by
  have h2 := congrArg (List.take (j + 1)) h
  rwa [List.take_take, List.take_take, Nat.min_eq_left (by omega)] at h2

/-! ### Length lemmas for the embedded series operations -/

theorem length_calculate_SMA (data : List ℚ) (w : ℕ) :
    (calculate_SMA data w).length = data.length := by
  simp [calculate_SMA]

theorem length_ewmMean (a : ℚ) (m : ℕ) (xs : List (Option ℚ)) :
    (ewmMean a m xs).length = xs.length := by
  simp [ewmMean]

theorem length_calculate_EMA (xs : List (Option ℚ)) (w : ℕ) :
    (calculate_EMA xs w).length = xs.length := by
  simp [calculate_EMA, ewmMean]

theorem length_seriesSub (a b : List (Option ℚ)) :
    (seriesSub a b).length = min a.length b.length := by
  simp [seriesSub, List.length_zipWith]

theorem length_reindexTo (n : ℕ) (s : ISeries) : (reindexTo n s).length = n := by
  simp [reindexTo]

theorem length_diffO (xs : List (Option ℚ)) : (diffO xs).length = xs.length := by
  simp [diffO]

/-! ### Causality (congruence) lemmas: each primitive at position `i`
reads only positions `0 … i` of its input. -/

theorem rollingMeanAt_congr {w : ℕ} {xs ys : List ℚ} {i : ℕ}
    (h : xs.take (i + 1) = ys.take (i + 1)) :
    rollingMeanAt w xs i = rollingMeanAt w ys i := by
  unfold rollingMeanAt windowSlice
  rw [h]

theorem rollingVarAt_congr {w : ℕ} {xs ys : List ℚ} {i : ℕ}
    (h : xs.take (i + 1) = ys.take (i + 1)) :
    rollingVarAt w xs i = rollingVarAt w ys i := by
  unfold rollingVarAt windowSlice
  rw [h]

theorem ewmNum_congr {a : ℚ} {as bs : List (Option ℚ)} {i : ℕ}
    (h : ∀ j, j ≤ i → as.getD j none = bs.getD j none) :
    ewmNum a as i = ewmNum a bs i := by
  unfold ewmNum
  congr 1
  apply List.map_congr_left
  intro j hj
  have hj2 : j ≤ i := Nat.lt_succ_iff.mp (List.mem_range.mp hj)
  unfold ewmTermV
  rw [h j hj2]

theorem ewmDen_congr {a : ℚ} {as bs : List (Option ℚ)} {i : ℕ}
    (h : ∀ j, j ≤ i → as.getD j none = bs.getD j none) :
    ewmDen a as i = ewmDen a bs i := by
  unfold ewmDen
  congr 1
  apply List.map_congr_left
  intro j hj
  have hj2 : j ≤ i := Nat.lt_succ_iff.mp (List.mem_range.mp hj)
  unfold ewmTermW
  rw [h j hj2]

theorem obsCount_congr {as bs : List (Option ℚ)} {i : ℕ}
    (h : ∀ j, j ≤ i → as.getD j none = bs.getD j none) :
    obsCount as i = obsCount bs i := by
  unfold obsCount
  congr 1
  apply List.filter_congr
  intro j hj
  have hj2 : j ≤ i := Nat.lt_succ_iff.mp (List.mem_range.mp hj)
  rw [h j hj2]

theorem ewmMeanAt_congr {a : ℚ} {m : ℕ} {as bs : List (Option ℚ)} {i : ℕ}
    (h : ∀ j, j ≤ i → as.getD j none = bs.getD j none) :
    ewmMeanAt a m as i = ewmMeanAt a m bs i := by
  unfold ewmMeanAt
  rw [ewmNum_congr h, ewmDen_congr h, obsCount_congr h]

theorem ewmMean_getD_congr {a : ℚ} {m : ℕ} {as bs : List (Option ℚ)} {i : ℕ}
    (h : ∀ j, j ≤ i → as.getD j none = bs.getD j none)
    (hia : i < as.length) (hib : i < bs.length) {j : ℕ} (hj : j ≤ i) :
    (ewmMean a m as).getD j none = (ewmMean a m bs).getD j none := by
  unfold ewmMean
  rw [getD_range_map _ (lt_of_le_of_lt hj hia) none,
    getD_range_map _ (lt_of_le_of_lt hj hib) none]
  exact ewmMeanAt_congr (fun k hk => h k (le_trans hk hj))

theorem calculate_EMA_getD_congr {as bs : List (Option ℚ)} {w i : ℕ}
    (h : ∀ j, j ≤ i → as.getD j none = bs.getD j none)
    (ha : i < as.length) (hb : i < bs.length) {j : ℕ} (hj : j ≤ i) :
    (calculate_EMA as w).getD j none = (calculate_EMA bs w).getD j none := by
  unfold calculate_EMA
  exact ewmMean_getD_congr h ha hb hj

theorem seriesSub_getD {a b : List (Option ℚ)} {j : ℕ}
    (ha : j < a.length) (hb : j < b.length) :
    (seriesSub a b).getD j none =
      match a.getD j none, b.getD j none with
      | some u, some v => some (u - v)
      | _, _ => none := by
  unfold seriesSub
  exact getD_zipWith _ a b ha hb none none none

/-! ### `calculate_RSI` produces no defined value

`delta[delta > 0]` and `delta[delta < 0]` select entries with *disjoint*
label sets; dividing the two smoothed series therefore aligns every label
of the union against a missing entry, so `RS` — and with it `RSI` — is
`NaN` everywhere. -/

theorem map_fst_zip_keep {α β γ : Type} :
    ∀ (s : List (α × β)) (t : List γ), s.length ≤ t.length →
      (List.zipWith (fun p o => (p.1, o)) s t).map Prod.fst = s.map Prod.fst
  | [], _, _ => rfl
  | p :: ps, [], h => by simp at h
  | p :: ps, o :: os, h => by
      simp only [List.zipWith_cons_cons, List.map_cons]
      rw [map_fst_zip_keep ps os (by simpa using h)]

theorem ewmMeanI_map_fst (a : ℚ) (m : ℕ) (s : ISeries) :
    (ewmMeanI a m s).map Prod.fst = s.map Prod.fst := by
  unfold ewmMeanI
  apply map_fst_zip_keep
  simp [ewmMean]

theorem mem_map_fst_filterPos {data : List ℚ} {k : ℕ}
    (h : k ∈ (filterPos (diffIdx data)).map Prod.fst) :
    isPosVal (deltaValAt data k) = true := by
  rcases List.mem_map.mp h with ⟨p, hp, hpk⟩
  rcases List.mem_filter.mp hp with ⟨hmem, hpred⟩
  rcases List.mem_map.mp hmem with ⟨j, _, hjp⟩
  rw [← hjp] at hpred hpk
  simp only at hpred hpk
  rwa [hpk] at hpred

theorem mem_map_fst_filterNegAbs {data : List ℚ} {k : ℕ}
    (h : k ∈ (filterNegAbs (diffIdx data)).map Prod.fst) :
    isNegVal (deltaValAt data k) = true := by
  unfold filterNegAbs at h
  rw [List.map_map] at h
  rcases List.mem_map.mp h with ⟨p, hp, hpk⟩
  rcases List.mem_filter.mp hp with ⟨hmem, hpred⟩
  rcases List.mem_map.mp hmem with ⟨j, _, hjp⟩
  rw [← hjp] at hpred hpk
  simp only [Function.comp] at hpred hpk
  rwa [hpk] at hpred

theorem lookupI_isSome_mem {s : ISeries} {k : ℕ} {v : Option ℚ}
    (h : lookupI s k = some v) : k ∈ s.map Prod.fst := by
  unfold lookupI at h
  cases hf : s.find? (fun p => p.1 == k) with
  | none => rw [hf] at h; simp at h
  | some p =>
      have hm := List.mem_of_find?_eq_some hf
      have hp := List.find?_some hf
      have hk : p.1 = k := by simpa using hp
      exact hk ▸ List.mem_map.mpr ⟨p, hm, rfl⟩

theorem divAligned_snd_none {a b : ISeries}
    (hdisj : ∀ k, k ∈ a.map Prod.fst → k ∈ b.map Prod.fst → False) :
    ∀ p ∈ divAligned a b, p.2 = none := by
  intro p hp
  unfold divAligned at hp
  rcases List.mem_map.mp hp with ⟨k, _, hkp⟩
  rw [← hkp]
  show (match lookupI a k, lookupI b k with
        | some (some x), some (some y) => if y = 0 then none else some (x / y)
        | _, _ => none) = none
  cases ha : lookupI a k with
  | none => rfl
  | some va =>
      cases hb : lookupI b k with
      | none => cases va <;> rfl
      | some vb =>
          exact absurd (hdisj k (lookupI_isSome_mem ha) (lookupI_isSome_mem hb)) id

theorem calculate_RSI_snd_none (data : List ℚ) (w : ℕ) :
    ∀ p ∈ calculate_RSI data w, p.2 = none := by
  intro p hp
  unfold calculate_RSI at hp
  rcases List.mem_map.mp hp with ⟨q, hq, hqp⟩
  have hq2 : q.2 = none := by
    refine divAligned_snd_none ?_ q hq
    intro k hka hkb
    rw [ewmMeanI_map_fst] at hka hkb
    have h1 := mem_map_fst_filterPos hka
    have h2 := mem_map_fst_filterNegAbs hkb
    cases hd : deltaValAt data k with
    | none => rw [hd] at h1; simp [isPosVal] at h1
    | some v =>
        rw [hd] at h1 h2
        simp only [isPosVal, isNegVal, decide_eq_true_eq] at h1 h2
        linarith
  rw [← hqp]
  simp [hq2]

theorem reindexTo_getD_none {n : ℕ} {s : ISeries}
    (h : ∀ p ∈ s, p.2 = none) {i : ℕ} (hi : i < n) :
    (reindexTo n s).getD i none = none := by
  unfold reindexTo
  rw [getD_range_map _ hi none]
  cases hl : lookupI s i with
  | none => rfl
  | some v =>
      show v = none
      unfold lookupI at hl
      cases hf : s.find? (fun p => p.1 == i) with
      | none => rw [hf] at hl; simp at hl
      | some p =>
          rw [hf] at hl
          have hv : p.2 = v := by simpa using hl
          rw [← hv]
          exact h p (List.mem_of_find?_eq_some hf)

/-! ### Unfolding lemmas for the composite definitions -/

theorem calculate_MACD_fst (data : List (Option ℚ)) (s f g : ℕ) :
    (calculate_MACD data s f g).1 =
      seriesSub (calculate_EMA data f) (calculate_EMA data s) := rfl

theorem calculate_MACD_snd (data : List (Option ℚ)) (s f g : ℕ) :
    (calculate_MACD data s f g).2 =
      calculate_EMA (seriesSub (calculate_EMA data f) (calculate_EMA data s)) g := rfl

theorem bollinger_fst (sq : ℚ → ℚ) (data : List ℚ) (w : ℕ) :
    (calculate_bollinger_bands sq data w).1 =
      List.zipWith (fun m s =>
        match m, s with
        | some u, some v => some (u + 2 * v)
        | _, _ => none)
        ((List.range data.length).map (rollingMeanAt w data))
        ((List.range data.length).map (fun i => (rollingVarAt w data i).map sq)) := rfl

theorem bollinger_snd (sq : ℚ → ℚ) (data : List ℚ) (w : ℕ) :
    (calculate_bollinger_bands sq data w).2 =
      List.zipWith (fun m s =>
        match m, s with
        | some u, some v => some (u - 2 * v)
        | _, _ => none)
        ((List.range data.length).map (rollingMeanAt w data))
        ((List.range data.length).map (fun i => (rollingVarAt w data i).map sq)) := rfl

theorem length_bollinger_fst (sq : ℚ → ℚ) (data : List ℚ) (w : ℕ) :
    (calculate_bollinger_bands sq data w).1.length = data.length := by
  rw [bollinger_fst, List.length_zipWith]
  simp

theorem length_bollinger_snd (sq : ℚ → ℚ) (data : List ℚ) (w : ℕ) :
    (calculate_bollinger_bands sq data w).2.length = data.length := by
  rw [bollinger_snd, List.length_zipWith]
  simp

theorem create_features_sma20 (sq : ℚ → ℚ) (data : List ℚ) :
    (create_features sq data).sma20 = calculate_SMA data 20 := rfl

theorem create_features_ema12 (sq : ℚ → ℚ) (data : List ℚ) :
    (create_features sq data).ema12 = calculate_EMA (data.map some) 12 := rfl

theorem create_features_macd (sq : ℚ → ℚ) (data : List ℚ) :
    (create_features sq data).macd =
      seriesSub (calculate_EMA (data.map some) 12) (calculate_EMA (data.map some) 26) := rfl

theorem create_features_macdSignal (sq : ℚ → ℚ) (data : List ℚ) :
    (create_features sq data).macdSignal =
      calculate_EMA
        (seriesSub (calculate_EMA (data.map some) 12) (calculate_EMA (data.map some) 26)) 9 := rfl

theorem create_features_rsi14 (sq : ℚ → ℚ) (data : List ℚ) :
    (create_features sq data).rsi14 = reindexTo data.length (calculate_RSI data 14) := rfl

theorem create_features_bbUpper (sq : ℚ → ℚ) (data : List ℚ) :
    (create_features sq data).bbUpper = (calculate_bollinger_bands sq data 20).1 := rfl

theorem create_features_bbLower (sq : ℚ → ℚ) (data : List ℚ) :
    (create_features sq data).bbLower = (calculate_bollinger_bands sq data 20).2 := rfl

theorem create_features_emaCrossover (sq : ℚ → ℚ) (data : List ℚ) :
    (create_features sq data).emaCrossover =
      seriesGt (calculate_EMA (data.map some) 12) (calculate_SMA data 20) := rfl

theorem create_features_rsiMomentum (sq : ℚ → ℚ) (data : List ℚ) :
    (create_features sq data).rsiMomentum =
      diffO (reindexTo data.length (calculate_RSI data 14)) := rfl

theorem create_features_bbWidth (sq : ℚ → ℚ) (data : List ℚ) :
    (create_features sq data).bbWidth =
      seriesSub (calculate_bollinger_bands sq data 20).1
        (calculate_bollinger_bands sq data 20).2 := rfl

/-! ### C6: `create_features` is causal -/

/-- C6: every indicator and every derived feature is causal: two price
series that agree on entries `0 … i` receive identical feature values at
row `i` — no column of `create_features` consults rows after `i`.  The
Bollinger square root `sq` is arbitrary (it is applied pointwise). -/
theorem create_features_causal (sq : ℚ → ℚ) (xs ys : List ℚ) (i : ℕ)
    (hx : i < xs.length) (hy : i < ys.length)
    (h : xs.take (i + 1) = ys.take (i + 1)) :
    featureRow (create_features sq xs) i = featureRow (create_features sq ys) i := by
  have hmt : (xs.map some).take (i + 1) = (ys.map some).take (i + 1) := by
    rw [← List.map_take, ← List.map_take, h]
  have hs : ∀ j, j ≤ i → (xs.map some).getD j none = (ys.map some).getD j none :=
    fun j hj => getD_of_take_eq hmt hj none
  have hxm : i < (xs.map some).length := by simpa using hx
  have hym : i < (ys.map some).length := by simpa using hy
  have hsma : ∀ j, j ≤ i →
      (calculate_SMA xs 20).getD j none = (calculate_SMA ys 20).getD j none := by
    intro j hj
    unfold calculate_SMA
    rw [getD_range_map _ (lt_of_le_of_lt hj hx) none,
      getD_range_map _ (lt_of_le_of_lt hj hy) none]
    exact rollingMeanAt_congr (take_eq_of_take_eq hj h)
  have hema : ∀ w : ℕ, ∀ j, j ≤ i →
      (calculate_EMA (xs.map some) w).getD j none =
        (calculate_EMA (ys.map some) w).getD j none :=
    fun w j hj => calculate_EMA_getD_congr hs hxm hym hj
  have hlemaxs : ∀ w : ℕ, (calculate_EMA (xs.map some) w).length = xs.length := by
    intro w
    rw [length_calculate_EMA]
    simp
  have hlemays : ∀ w : ℕ, (calculate_EMA (ys.map some) w).length = ys.length := by
    intro w
    rw [length_calculate_EMA]
    simp
  have hmacd : ∀ j, j ≤ i →
      (seriesSub (calculate_EMA (xs.map some) 12)
        (calculate_EMA (xs.map some) 26)).getD j none =
      (seriesSub (calculate_EMA (ys.map some) 12)
        (calculate_EMA (ys.map some) 26)).getD j none := by
    intro j hj
    rw [seriesSub_getD (by rw [hlemaxs]; exact lt_of_le_of_lt hj hx)
        (by rw [hlemaxs]; exact lt_of_le_of_lt hj hx),
      seriesSub_getD (by rw [hlemays]; exact lt_of_le_of_lt hj hy)
        (by rw [hlemays]; exact lt_of_le_of_lt hj hy),
      hema 12 j hj, hema 26 j hj]
  have hlmacdxs : (seriesSub (calculate_EMA (xs.map some) 12)
      (calculate_EMA (xs.map some) 26)).length = xs.length := by
    rw [length_seriesSub, hlemaxs, hlemaxs]
    simp
  have hlmacdys : (seriesSub (calculate_EMA (ys.map some) 12)
      (calculate_EMA (ys.map some) 26)).length = ys.length := by
    rw [length_seriesSub, hlemays, hlemays]
    simp
  have hsig :
      (calculate_EMA (seriesSub (calculate_EMA (xs.map some) 12)
        (calculate_EMA (xs.map some) 26)) 9).getD i none =
      (calculate_EMA (seriesSub (calculate_EMA (ys.map some) 12)
        (calculate_EMA (ys.map some) 26)) 9).getD i none :=
    calculate_EMA_getD_congr hmacd (by rw [hlmacdxs]; exact hx)
      (by rw [hlmacdys]; exact hy) (le_refl i)
  have hrsixs : (reindexTo xs.length (calculate_RSI xs 14)).getD i none = none :=
    reindexTo_getD_none (calculate_RSI_snd_none xs 14) hx
  have hrsiys : (reindexTo ys.length (calculate_RSI ys 14)).getD i none = none :=
    reindexTo_getD_none (calculate_RSI_snd_none ys 14) hy
  have hmomxs : (diffO (reindexTo xs.length (calculate_RSI xs 14))).getD i none = none := by
    unfold diffO
    rw [getD_range_map _ (by rw [length_reindexTo]; exact hx) none]
    by_cases h0 : i = 0
    · simp [h0]
    · simp only [h0, if_false]
      rw [hrsixs]
  have hmomys : (diffO (reindexTo ys.length (calculate_RSI ys 14))).getD i none = none := by
    unfold diffO
    rw [getD_range_map _ (by rw [length_reindexTo]; exact hy) none]
    by_cases h0 : i = 0
    · simp [h0]
    · simp only [h0, if_false]
      rw [hrsiys]
  have hbu : ∀ j, j ≤ i →
      (calculate_bollinger_bands sq xs 20).1.getD j none =
        (calculate_bollinger_bands sq ys 20).1.getD j none := by
    intro j hj
    rw [bollinger_fst sq xs 20, bollinger_fst sq ys 20,
      getD_zipWith _ _ _ (by simpa using lt_of_le_of_lt hj hx)
        (by simpa using lt_of_le_of_lt hj hx) none none none,
      getD_zipWith _ _ _ (by simpa using lt_of_le_of_lt hj hy)
        (by simpa using lt_of_le_of_lt hj hy) none none none,
      getD_range_map _ (lt_of_le_of_lt hj hx) none,
      getD_range_map _ (lt_of_le_of_lt hj hx) none,
      getD_range_map _ (lt_of_le_of_lt hj hy) none,
      getD_range_map _ (lt_of_le_of_lt hj hy) none,
      rollingMeanAt_congr (take_eq_of_take_eq hj h),
      rollingVarAt_congr (take_eq_of_take_eq hj h)]
  have hbl : ∀ j, j ≤ i →
      (calculate_bollinger_bands sq xs 20).2.getD j none =
        (calculate_bollinger_bands sq ys 20).2.getD j none := by
    intro j hj
    rw [bollinger_snd sq xs 20, bollinger_snd sq ys 20,
      getD_zipWith _ _ _ (by simpa using lt_of_le_of_lt hj hx)
        (by simpa using lt_of_le_of_lt hj hx) none none none,
      getD_zipWith _ _ _ (by simpa using lt_of_le_of_lt hj hy)
        (by simpa using lt_of_le_of_lt hj hy) none none none,
      getD_range_map _ (lt_of_le_of_lt hj hx) none,
      getD_range_map _ (lt_of_le_of_lt hj hx) none,
      getD_range_map _ (lt_of_le_of_lt hj hy) none,
      getD_range_map _ (lt_of_le_of_lt hj hy) none,
      rollingMeanAt_congr (take_eq_of_take_eq hj h),
      rollingVarAt_congr (take_eq_of_take_eq hj h)]
  have hwidth :
      (seriesSub (calculate_bollinger_bands sq xs 20).1
        (calculate_bollinger_bands sq xs 20).2).getD i none =
      (seriesSub (calculate_bollinger_bands sq ys 20).1
        (calculate_bollinger_bands sq ys 20).2).getD i none := by
    rw [seriesSub_getD (by rw [length_bollinger_fst]; exact hx)
        (by rw [length_bollinger_snd]; exact hx),
      seriesSub_getD (by rw [length_bollinger_fst]; exact hy)
        (by rw [length_bollinger_snd]; exact hy),
      hbu i (le_refl i), hbl i (le_refl i)]
  have hcross :
      (seriesGt (calculate_EMA (xs.map some) 12) (calculate_SMA xs 20)).getD i false =
      (seriesGt (calculate_EMA (ys.map some) 12) (calculate_SMA ys 20)).getD i false := by
    unfold seriesGt
    rw [getD_zipWith _ _ _ (by rw [hlemaxs]; exact hx)
        (by rw [length_calculate_SMA]; exact hx) false none none,
      getD_zipWith _ _ _ (by rw [hlemays]; exact hy)
        (by rw [length_calculate_SMA]; exact hy) false none none,
      hema 12 i (le_refl i), hsma i (le_refl i)]
  unfold featureRow
  rw [create_features_sma20 sq xs, create_features_sma20 sq ys,
    create_features_ema12 sq xs, create_features_ema12 sq ys,
    create_features_macd sq xs, create_features_macd sq ys,
    create_features_macdSignal sq xs, create_features_macdSignal sq ys,
    create_features_rsi14 sq xs, create_features_rsi14 sq ys,
    create_features_bbUpper sq xs, create_features_bbUpper sq ys,
    create_features_bbLower sq xs, create_features_bbLower sq ys,
    create_features_emaCrossover sq xs, create_features_emaCrossover sq ys,
    create_features_rsiMomentum sq xs, create_features_rsiMomentum sq ys,
    create_features_bbWidth sq xs, create_features_bbWidth sq ys,
    hsma i (le_refl i), hema 12 i (le_refl i), hmacd i (le_refl i), hsig,
    hrsixs, hrsiys, hbu i (le_refl i), hbl i (le_refl i), hcross,
    hmomxs, hmomys, hwidth]

/-- Witness for C6 at concrete inputs: `[1, 2, 3]` and `[1, 2, 4, 9]` agree
on entries `0 … 1` and get identical feature rows at row `1`. -/
theorem create_features_causal_witness :
    featureRow (create_features (fun q => q) [(1 : ℚ), 2, 3]) 1 =
      featureRow (create_features (fun q => q) [(1 : ℚ), 2, 4, 9]) 1 :=
  create_features_causal (fun q => q) [(1 : ℚ), 2, 3] [(1 : ℚ), 2, 4, 9] 1
    (by decide) (by decide) (by decide)

/-! ### C2: SMA is the trailing-window arithmetic mean -/

theorem windowSlice_eq_map_range {w : ℕ} {xs : List ℚ} {i : ℕ}
    (hw : w ≤ i + 1) (hi : i < xs.length) :
    windowSlice w xs i = (List.range w).map (fun k => xs.getD (i + 1 - w + k) 0) := by
  apply List.ext_getElem
  · simp [windowSlice]
    omega
  · intro k h1 h2
    have hkw : k < w := by simpa using h2
    have hidx : i + 1 - w + k < xs.length := by omega
    have hval : xs.getD (i + 1 - w + k) 0 = xs[i + 1 - w + k] := by
      rw [List.getD_eq_getElem?_getD, List.getElem?_eq_getElem hidx]
      rfl
    simp only [windowSlice, List.getElem_drop, List.getElem_take, List.getElem_map,
      List.getElem_range]
    rw [hval]

/-- C2: for every window `w ≥ 1` (pandas rejects `w = 0`) and every price
series, `calculate_SMA` returns a series of the same length whose value at
index `i` is the arithmetic mean of the `w` most recent inputs (indices
`i−w+1 … i`) when `i ≥ w−1`, and is missing for all earlier indices. -/
theorem calculate_SMA_window_mean (data : List ℚ) (w : ℕ) (_hw : 1 ≤ w) :
    (calculate_SMA data w).length = data.length ∧
    ∀ i, i < data.length →
      (calculate_SMA data w).getD i none =
        if w ≤ i + 1 then
          some ((((List.range w).map (fun k => data.getD (i + 1 - w + k) 0)).sum) / (w : ℚ))
        else none := by
  refine ⟨length_calculate_SMA data w, ?_⟩
  intro i hi
  unfold calculate_SMA
  rw [getD_range_map _ hi none]
  unfold rollingMeanAt
  by_cases hc : w ≤ i + 1
  · rw [if_pos hc, if_pos hc, windowSlice_eq_map_range hc hi]
  · rw [if_neg hc, if_neg hc]

/-- Witness for C2 on `[1, 2, 4]` with window 2: length preserved, index 0
is missing, index 2 is `(2 + 4)/2 = 3`. -/
theorem calculate_SMA_window_mean_witness :
    (calculate_SMA [(1 : ℚ), 2, 4] 2).length = 3 ∧
    (calculate_SMA [(1 : ℚ), 2, 4] 2).getD 0 none = none ∧
    (calculate_SMA [(1 : ℚ), 2, 4] 2).getD 2 none = some 3 := by
  have h := calculate_SMA_window_mean [(1 : ℚ), 2, 4] 2 (by decide)
  refine ⟨by rw [h.1]; rfl, (h.2 0 (by decide)).trans (by decide),
    (h.2 2 (by decide)).trans (by decide)⟩

/-! ### C3 (amended): `calculate_EMA` and the third-cell MACD use
`alpha = 2/(window+1)` and are undefined until `window` observations -/

/-- C3 (amended): `calculate_EMA` smooths with factor `α = 2/(window+1)`;
the fast, slow and signal EMAs of the `calculate_MACD` variant that calls
`calculate_EMA` are exactly such smoothings; and on a fully observed price
series the EMA output at index `i` is missing precisely while fewer than
`window` observations have accumulated (`i + 1 < window`).  (The second-cell
`calculate_MACD` instead smooths with `α = 1/window`; see the
counterexample.) -/
theorem calculate_EMA_alpha_warmup (data : List ℚ) (w : ℕ) (hw : 1 ≤ w)
    (i : ℕ) (hi : i < data.length) :
    calculate_EMA (data.map some) w =
      ewmMean (2 / ((w : ℚ) + 1)) w (data.map some) ∧
    (∀ (xs : List (Option ℚ)) (s f g : ℕ),
      (calculate_MACD xs s f g).1 =
        seriesSub (ewmMean (2 / ((f : ℚ) + 1)) f xs) (ewmMean (2 / ((s : ℚ) + 1)) s xs) ∧
      (calculate_MACD xs s f g).2 =
        ewmMean (2 / ((g : ℚ) + 1)) g
          (seriesSub (ewmMean (2 / ((f : ℚ) + 1)) f xs)
            (ewmMean (2 / ((s : ℚ) + 1)) s xs))) ∧
    ((calculate_EMA (data.map some) w).getD i none = none ↔ i + 1 < w) := by
  refine ⟨rfl, fun xs s f g => ⟨rfl, rfl⟩, ?_⟩
  unfold calculate_EMA ewmMean
  rw [getD_range_map _ (by simpa using hi) none]
  unfold ewmMeanAt
  have hgetD : ∀ j, j ≤ i → (data.map some).getD j none = some (data.getD j 0) := by
    intro j hj
    have hjlt : j < data.length := lt_of_le_of_lt hj hi
    rw [List.getD_eq_getElem?_getD, List.getElem?_eq_getElem (by simpa using hjlt),
      List.getD_eq_getElem?_getD, List.getElem?_eq_getElem hjlt]
    simp
  have hobs : obsCount (data.map some) i = i + 1 := by
    unfold obsCount
    rw [List.filter_eq_self.mpr, List.length_range]
    intro j hj
    rw [hgetD j (Nat.lt_succ_iff.mp (List.mem_range.mp hj))]
    rfl
  have halpha : (0 : ℚ) ≤ 1 - 2 / ((w : ℚ) + 1) := by
    rw [sub_nonneg, div_le_one (by positivity)]
    have hwq : (1 : ℚ) ≤ (w : ℚ) := by exact_mod_cast hw
    linarith
  have hdenpos : 0 < ewmDen (2 / ((w : ℚ) + 1)) (data.map some) i := by
    unfold ewmDen
    have hmem : ewmTermW (2 / ((w : ℚ) + 1)) (data.map some) i i ∈
        (List.range (i + 1)).map (ewmTermW (2 / ((w : ℚ) + 1)) (data.map some) i) :=
      List.mem_map.mpr ⟨i, List.mem_range.mpr (by omega), rfl⟩
    have h1 : ewmTermW (2 / ((w : ℚ) + 1)) (data.map some) i i = 1 := by
      unfold ewmTermW
      rw [hgetD i (le_refl i)]
      rw [Nat.sub_self, pow_zero]
    have hnn : ∀ x ∈ (List.range (i + 1)).map
        (ewmTermW (2 / ((w : ℚ) + 1)) (data.map some) i), 0 ≤ x := by
      intro x hx
      rcases List.mem_map.mp hx with ⟨j, hj, hxj⟩
      rw [← hxj]
      unfold ewmTermW
      cases (data.map some).getD j none with
      | none => exact le_refl 0
      | some v => exact pow_nonneg halpha _
    have hle := List.single_le_sum hnn _ hmem
    rw [h1] at hle
    linarith
  by_cases hc : w ≤ i + 1
  · rw [if_pos ⟨by rw [hobs]; exact hc, ne_of_gt hdenpos⟩]
    constructor
    · intro hsome
      exact absurd hsome (by simp)
    · intro hlt
      omega
  · rw [if_neg (fun hh => hc (by rw [hobs] at hh; exact hh.1))]
    constructor
    · intro _
      omega
    · intro _
      rfl

/-- Witness for the amended C3 on `[1, 2, 3]` with window 2: the EMA is
missing at index 0 (one observation) and defined at index 1 (two
observations). -/
theorem calculate_EMA_alpha_warmup_witness :
    (calculate_EMA ([(1 : ℚ), 2, 3].map some) 2).getD 0 none = none ∧
    ¬(calculate_EMA ([(1 : ℚ), 2, 3].map some) 2).getD 1 none = none := by
  have h0 := calculate_EMA_alpha_warmup [(1 : ℚ), 2, 3] 2 (by decide) 0 (by decide)
  have h1 := calculate_EMA_alpha_warmup [(1 : ℚ), 2, 3] 2 (by decide) 1 (by decide)
  exact ⟨h0.2.2.mpr (by decide), fun hn => by have h2 := h1.2.2.mp hn; omega⟩

/-! ### C7 (amended): on a constant series every defined SMA/EMA value is
that constant -/

/-- C7 (amended, the verifiable constant-series instance): on the constant
series with value `c`, `calculate_SMA` and `calculate_EMA` with any window
`w ≥ 1` both return exactly the series that is missing through the warm-up
(`i + 1 < w`) and the constant `c` everywhere after it. -/
theorem sma_ema_constant_series (c : ℚ) (n w : ℕ) (hw : 1 ≤ w) :
    calculate_SMA (List.replicate n c) w =
      (List.range n).map (fun i => if w ≤ i + 1 then some c else none) ∧
    calculate_EMA (List.replicate n (some c)) w =
      (List.range n).map (fun i => if w ≤ i + 1 then some c else none) := by
  have hwq : (0 : ℚ) < (w : ℚ) := by
    have : (1 : ℚ) ≤ (w : ℚ) := by exact_mod_cast hw
    linarith
  constructor
  · unfold calculate_SMA
    rw [List.length_replicate]
    apply List.map_congr_left
    intro i hi
    have hin : i < n := List.mem_range.mp hi
    unfold rollingMeanAt
    by_cases hc : w ≤ i + 1
    · rw [if_pos hc, if_pos hc]
      have hws : windowSlice w (List.replicate n c) i = List.replicate w c := by
        unfold windowSlice
        rw [List.take_replicate, List.drop_replicate]
        congr 1
        omega
      rw [hws, List.sum_replicate, nsmul_eq_mul, mul_comm, mul_div_assoc,
        div_self (ne_of_gt hwq), mul_one]
    · rw [if_neg hc, if_neg hc]
  · unfold calculate_EMA ewmMean
    rw [List.length_replicate]
    apply List.map_congr_left
    intro i hi
    have hin : i < n := List.mem_range.mp hi
    have hgetD : ∀ j, j ≤ i → (List.replicate n (some c)).getD j none = some c := by
      intro j hj
      rw [List.getD_eq_getElem?_getD,
        List.getElem?_eq_getElem (by simpa using lt_of_le_of_lt hj hin)]
      simp
    have hobs : obsCount (List.replicate n (some c)) i = i + 1 := by
      unfold obsCount
      rw [List.filter_eq_self.mpr, List.length_range]
      intro j hj
      rw [hgetD j (Nat.lt_succ_iff.mp (List.mem_range.mp hj))]
      rfl
    have halpha : (0 : ℚ) ≤ 1 - 2 / ((w : ℚ) + 1) := by
      rw [sub_nonneg, div_le_one (by positivity)]
      have hwq1 : (1 : ℚ) ≤ (w : ℚ) := by exact_mod_cast hw
      linarith
    have hterm : ∀ j ∈ List.range (i + 1),
        ewmTermW (2 / ((w : ℚ) + 1)) (List.replicate n (some c)) i j =
          (1 - 2 / ((w : ℚ) + 1)) ^ (i - j) := by
      intro j hj
      unfold ewmTermW
      rw [hgetD j (Nat.lt_succ_iff.mp (List.mem_range.mp hj))]
    have hden_eq : ewmDen (2 / ((w : ℚ) + 1)) (List.replicate n (some c)) i =
        ((List.range (i + 1)).map (fun j => (1 - 2 / ((w : ℚ) + 1)) ^ (i - j))).sum := by
      unfold ewmDen
      exact congrArg List.sum (List.map_congr_left hterm)
    have hdenpos : 0 < ewmDen (2 / ((w : ℚ) + 1)) (List.replicate n (some c)) i := by
      rw [hden_eq]
      have hmem : ((1 : ℚ) - 2 / ((w : ℚ) + 1)) ^ (i - i) ∈
          (List.range (i + 1)).map (fun j => (1 - 2 / ((w : ℚ) + 1)) ^ (i - j)) :=
        List.mem_map.mpr ⟨i, List.mem_range.mpr (by omega), rfl⟩
      have hnn : ∀ x ∈ (List.range (i + 1)).map
          (fun j => (1 - 2 / ((w : ℚ) + 1)) ^ (i - j)), 0 ≤ x := by
        intro x hx
        rcases List.mem_map.mp hx with ⟨j, _, hxj⟩
        rw [← hxj]
        exact pow_nonneg halpha _
      have hle := List.single_le_sum hnn _ hmem
      rw [Nat.sub_self, pow_zero] at hle
      linarith
    have hnum : ewmNum (2 / ((w : ℚ) + 1)) (List.replicate n (some c)) i =
        c * ewmDen (2 / ((w : ℚ) + 1)) (List.replicate n (some c)) i := by
      unfold ewmNum
      have hstep : ∀ j ∈ List.range (i + 1),
          ewmTermV (2 / ((w : ℚ) + 1)) (List.replicate n (some c)) i j =
            c * (1 - 2 / ((w : ℚ) + 1)) ^ (i - j) := by
        intro j hj
        unfold ewmTermV
        rw [hgetD j (Nat.lt_succ_iff.mp (List.mem_range.mp hj))]
        ring
      rw [congrArg List.sum (List.map_congr_left hstep), List.sum_map_mul_left, hden_eq]
    unfold ewmMeanAt
    by_cases hc : w ≤ i + 1
    · rw [if_pos ⟨by rw [hobs]; exact hc, ne_of_gt hdenpos⟩, if_pos hc, hnum,
        mul_div_assoc, div_self (ne_of_gt hdenpos), mul_one]
    · rw [if_neg (fun hh => hc (by rw [hobs] at hh; exact hh.1)), if_neg hc]

/-- Witness for the amended C7 with `c = 5`, `n = 4`, `w = 2`. -/
theorem sma_ema_constant_series_witness :
    calculate_SMA (List.replicate 4 (5 : ℚ)) 2 = [none, some 5, some 5, some 5] ∧
    calculate_EMA (List.replicate 4 (some (5 : ℚ))) 2 = [none, some 5, some 5, some 5] := by
  have h := sma_ema_constant_series 5 4 2 (by decide)
  exact ⟨h.1.trans (by decide), h.2.trans (by decide)⟩

/-! ### C9: `trading_decision` labels every row Buy or Sell, never Hold -/

theorem trading_mem_buy_sell :
    ∀ (close : List ℚ) (sma20 : List (Option ℚ)) (s : String),
      s ∈ trading_decision close sma20 → s = "Buy" ∨ s = "Sell"
  | [], _, s, h => by simp [trading_decision] at h
  | _ :: _, [], s, h => by simp [trading_decision] at h
  | c :: cs, o :: os, s, h => by
      simp only [trading_decision, List.zipWith_cons_cons, List.mem_cons] at h
      rcases h with h | h
      · by_cases hc : gtQO c o
        · left
          rw [h, if_pos hc]
        · right
          rw [h, if_neg hc]
      · exact trading_mem_buy_sell cs os s h

/-- C9: every row of `trading_decision` is labeled `Buy` exactly when
`Close > SMA_20` (a `NaN` comparison counting as false) and `Sell`
otherwise; the label `Hold` is never produced. -/
theorem trading_decision_buy_sell (close : List ℚ) (sma20 : List (Option ℚ)) :
    (∀ i, i < close.length → i < sma20.length →
      (trading_decision close sma20).getD i "" =
        if gtQO (close.getD i 0) (sma20.getD i none) then "Buy" else "Sell") ∧
    "Hold" ∉ trading_decision close sma20 := by
  constructor
  · intro i h1 h2
    unfold trading_decision
    rw [getD_zipWith _ _ _ h1 h2 "" 0 none]
  · intro hmem
    rcases trading_mem_buy_sell close sma20 "Hold" hmem with h | h <;>
      exact absurd h (by decide)

/-- Witness for C9 on `Close = [2, 1]`, `SMA_20 = [1, 5]`: row 0 is `Buy`
(2 > 1), row 1 is `Sell` (1 ≤ 5), and `Hold` does not occur. -/
theorem trading_decision_buy_sell_witness :
    (trading_decision [(2 : ℚ), 1] [some (1 : ℚ), some 5]).getD 0 "" = "Buy" ∧
    (trading_decision [(2 : ℚ), 1] [some (1 : ℚ), some 5]).getD 1 "" = "Sell" ∧
    "Hold" ∉ trading_decision [(2 : ℚ), 1] [some (1 : ℚ), some 5] := by
  have h := trading_decision_buy_sell [(2 : ℚ), 1] [some (1 : ℚ), some 5]
  exact ⟨(h.1 0 (by decide) (by decide)).trans (by decide),
    (h.1 1 (by decide) (by decide)).trans (by decide), h.2⟩
